import Mathlib

/-!
Verification of the Safe Haven Docs repository.

The development shallowly embeds the two components of the repository:

* the SafeHavenDocs Solidity contract (document ledger: create, update body,
  grant access, lookups, pagination), and
* the client cipher (docCrypto.ts: key derivation, base64 and UTF-8 codecs,
  payload assembly, encrypt and decrypt of document bodies).

EVM/Web-API primitives that the repository only calls (keccak256, the FHE
coprocessor, SHA-256, AES-GCM, btoa/atob, TextEncoder/TextDecoder) are not part
of the repository and are modelled from the specification; each such definition
carries a doc comment starting with the words Modelled from the spec.
Machine integers are modelled as Nat; Solidity 0.8 checked arithmetic reverts
on overflow, which is modelled by an explicit PanicOverflow error, and the
explicit uint40 cast of block.timestamp truncates modulo 2 ^ 40.
-/

namespace SafeHaven

/-- A document record, mirroring the Solidity struct Document.  Addresses and
the bytes32 document id are modelled as Nat (the zero address is 0); the
euint64 encrypted-key handle is an opaque Nat. -/
structure Document where
  name : String
  encryptedBody : String
  encryptedKey : Nat
  owner : Nat
  createdAt : Nat
  updatedAt : Nat
  version : Nat
deriving Repr, DecidableEq

/-- The default Document value: a Solidity mapping yields the all-zero struct
for any key that was never written. -/
def emptyDocument : Document :=
  { name := "", encryptedBody := "", encryptedKey := 0, owner := 0,
    createdAt := 0, updatedAt := 0, version := 0 }

/-- Contract storage: the _documents mapping, the _editors mapping and the
append-only _documentIds array. -/
structure LedgerState where
  documents : Nat → Document
  editors : Nat → Nat → Bool
  documentIds : List Nat

/-- Freshly deployed contract: both mappings are at their defaults and the id
array is empty. -/
def initialState : LedgerState :=
  { documents := fun _ => emptyDocument, editors := fun _ _ => false, documentIds := [] }

/-- The custom errors declared by the contract, plus PanicOverflow for the
revert produced by Solidity 0.8 checked arithmetic (Panic code 0x11). -/
inductive LedgerError where
  | InvalidName
  | InvalidAddress
  | DocumentAlreadyExists (documentId : Nat)
  | DocumentNotFound (documentId : Nat)
  | NotOwner (documentId : Nat) (caller : Nat)
  | NotEditor (documentId : Nat) (caller : Nat)
  | PanicOverflow
deriving Repr, DecidableEq

/-- UTF-8 encoding of one Unicode scalar value, written with division and
remainder instead of bit operations: a scalar below 0x80 is one byte, below
0x800 two bytes, below 0x10000 three bytes, and four bytes otherwise. -/
def utf8EncodeChar (c : Char) : List Nat :=
  if c.toNat < 0x80 then [c.toNat]
  else if c.toNat < 0x800 then [0xC0 + c.toNat / 64, 0x80 + c.toNat % 64]
  else if c.toNat < 0x10000 then
    [0xE0 + c.toNat / 4096, 0x80 + c.toNat / 64 % 64, 0x80 + c.toNat % 64]
  else
    [0xF0 + c.toNat / 262144, 0x80 + c.toNat / 4096 % 64,
     0x80 + c.toNat / 64 % 64, 0x80 + c.toNat % 64]

/-- Modelled from the spec: the byte sequence of a string (Solidity bytes(name),
the TextEncoder of the Web API).  Both produce the UTF-8 encoding of the
string, here computed character by character. -/
def utf8EncodeList : List Char → List Nat
  | [] => []
  | c :: cs => utf8EncodeChar c ++ utf8EncodeList cs

/-- Modelled from the spec: keccak256 is supplied by the EVM.  It is modelled
as a pure deterministic digest of the UTF-8 bytes of the name, which is all the
repository relies on; collision resistance is not assumed anywhere in this
development.  This embeds computeDocumentId of the contract. -/
def computeDocumentId (name : String) : Nat :=
  (utf8EncodeList name.data).foldl (fun acc b => (acc * 257 + b + 1) % 2 ^ 256) 7

/-- Modelled from the spec: FHE.fromExternal validates an externally encrypted
input against its attestation proof and admits it as a ciphertext handle.  The
FHE coprocessor is an external subsystem; admission is modelled as returning
the external handle.  The on-chain FHE access list updated by FHE.allow and
FHE.allowThis lives outside contract storage and is not modelled. -/
def fheFromExternal (encryptedKey : Nat) (inputProof : List Nat) : Nat :=
  encryptedKey + 0 * inputProof.length

/-- createDocument of the contract.  The authenticated caller (msg.sender) and
the block timestamp are explicit parameters.  Reverts are modelled by Except:
an error result leaves the state unchanged, matching the all-or-nothing
semantics of the EVM. -/
def createDocument (s : LedgerState) (sender now : Nat) (name : String)
    (encryptedKey : Nat) (inputProof : List Nat) :
    Except LedgerError (LedgerState × Nat) :=
  if utf8EncodeList name.data = [] then .error .InvalidName
  else
    let documentId := computeDocumentId name
    if (s.documents documentId).owner ≠ 0 then
      .error (.DocumentAlreadyExists documentId)
    else
      let key := fheFromExternal encryptedKey inputProof
      let doc : Document :=
        { name := name, encryptedBody := "", encryptedKey := key, owner := sender,
          createdAt := now % 2 ^ 40, updatedAt := now % 2 ^ 40, version := 0 }
      .ok ({ documents := fun i => if i = documentId then doc else s.documents i,
             editors := fun i a => if i = documentId ∧ a = sender then true else s.editors i a,
             documentIds := s.documentIds ++ [documentId] },
           documentId)

/-- updateEncryptedBody of the contract.  The version field is a uint32 and the
increment is checked, so a document whose version has reached 2 ^ 32 - 1
reverts with a panic instead of wrapping. -/
def updateEncryptedBody (s : LedgerState) (sender now documentId : Nat)
    (encryptedBody : String) : Except LedgerError LedgerState :=
  let doc := s.documents documentId
  if doc.owner = 0 then .error (.DocumentNotFound documentId)
  else if s.editors documentId sender = false then .error (.NotEditor documentId sender)
  else if 2 ^ 32 ≤ doc.version + 1 then .error .PanicOverflow
  else
    .ok { s with documents := fun i =>
            if i = documentId then
              { doc with encryptedBody := encryptedBody,
                         updatedAt := now % 2 ^ 40,
                         version := doc.version + 1 }
            else s.documents i }

/-- grantAccess of the contract.  The FHE.allow call it performs touches only
the external FHE access list, not contract storage. -/
def grantAccess (s : LedgerState) (sender documentId grantee : Nat) :
    Except LedgerError LedgerState :=
  if grantee = 0 then .error .InvalidAddress
  else
    let doc := s.documents documentId
    if doc.owner = 0 then .error (.DocumentNotFound documentId)
    else if doc.owner ≠ sender then .error (.NotOwner documentId sender)
    else
      .ok { s with editors := fun i a =>
              if i = documentId ∧ a = grantee then true else s.editors i a }

/-- getDocument of the contract. -/
def getDocument (s : LedgerState) (documentId : Nat) : Except LedgerError Document :=
  if (s.documents documentId).owner = 0 then .error (.DocumentNotFound documentId)
  else .ok (s.documents documentId)

/-- isEditor of the contract: a pure lookup that never fails. -/
def isEditor (s : LedgerState) (documentId user : Nat) : Bool :=
  s.editors documentId user

/-- getDocumentCount of the contract. -/
def getDocumentCount (s : LedgerState) : Nat :=
  s.documentIds.length

/-- getDocumentIds of the contract.  offset and limit are uint256 values, so
the checked addition offset + limit reverts with a panic when the mathematical
sum reaches 2 ^ 256; the copy loop is rendered as a map over the index range. -/
def getDocumentIds (s : LedgerState) (offset limit : Nat) :
    Except LedgerError (List Nat) :=
  let total := s.documentIds.length
  if total ≤ offset then .ok []
  else if 2 ^ 256 ≤ offset + limit then .error .PanicOverflow
  else
    let e := offset + limit
    let e := if total < e then total else e
    .ok ((List.range (e - offset)).map fun j => s.documentIds.getD (offset + j) 0)

/-- Runs a sequence of updateEncryptedBody calls against one document id; each
list entry carries the caller, the block timestamp and the new body.  The run
produces a state only if every call succeeds. -/
def runUpdates (documentId : Nat) : LedgerState → List (Nat × Nat × String) → Option LedgerState
  | s, [] => some s
  | s, u :: us =>
      match updateEncryptedBody s u.1 u.2.1 documentId u.2.2 with
      | .ok s' => runUpdates documentId s' us
      | .error _ => none

/-- States of the ledger reachable from a fresh deployment by the three
state-changing entry points.  The execution environment authenticates every
caller cryptographically (spec section 6), so msg.sender is never the zero
address; this environmental fact is a hypothesis of every step. -/
inductive Reachable : LedgerState → Prop
  | init : Reachable initialState
  | create {s : LedgerState} {sender now encryptedKey : Nat} {name : String}
      {inputProof : List Nat} {s' : LedgerState} {documentId : Nat}
      (hs : Reachable s) (hsender : sender ≠ 0)
      (hc : createDocument s sender now name encryptedKey inputProof = .ok (s', documentId)) :
      Reachable s'
  | update {s : LedgerState} {sender now documentId : Nat} {encryptedBody : String}
      {s' : LedgerState}
      (hs : Reachable s) (hsender : sender ≠ 0)
      (hu : updateEncryptedBody s sender now documentId encryptedBody = .ok s') :
      Reachable s'
  | grant {s : LedgerState} {sender documentId grantee : Nat} {s' : LedgerState}
      (hs : Reachable s) (hsender : sender ≠ 0)
      (hg : grantAccess s sender documentId grantee = .ok s') :
      Reachable s'

/-- The base64 alphabet used by btoa/atob. -/
def base64Chars : List Char :=
  "ABCDEFGHIJKLMNOPQRSTUVWXYZabcdefghijklmnopqrstuvwxyz0123456789+/".data

/-- The character for a 6-bit group. -/
def sextetToChar (n : Nat) : Char :=
  base64Chars.getD n '='

/-- The 6-bit value of a base64 character, none for a character outside the
alphabet. -/
def charToSextet (c : Char) : Option Nat :=
  base64Chars.findIdx? (fun x => x = c)

/-- Modelled from the spec: the composition of bytesToBase64 (docCrypto.ts)
with the btoa builtin of the Web API, i.e. standard base64 encoding of a byte
sequence with trailing = padding. -/
def base64Encode : List Nat → List Char
  | [] => []
  | [b0] => [sextetToChar (b0 / 4), sextetToChar (b0 % 4 * 16), '=', '=']
  | [b0, b1] =>
      [sextetToChar (b0 / 4), sextetToChar (b0 % 4 * 16 + b1 / 16),
       sextetToChar (b1 % 16 * 4), '=']
  | b0 :: b1 :: b2 :: bs =>
      sextetToChar (b0 / 4) :: sextetToChar (b0 % 4 * 16 + b1 / 16) ::
      sextetToChar (b1 % 16 * 4 + b2 / 64) :: sextetToChar (b2 % 64) :: base64Encode bs

/-- Modelled from the spec: the composition of the atob builtin with
base64ToBytes (docCrypto.ts).  atob throws on input that is not well-formed
base64 (a character outside the alphabet, or a malformed length or padding);
this is modelled by returning none. -/
def base64Decode : List Char → Option (List Nat)
  | [] => some []
  | c0 :: c1 :: c2 :: c3 :: cs =>
      match charToSextet c0, charToSextet c1 with
      | some n0, some n1 =>
          if c2 = '=' then
            if c3 = '=' ∧ cs = [] then some [n0 * 4 + n1 / 16] else none
          else
            match charToSextet c2 with
            | some n2 =>
                if c3 = '=' then
                  if cs = [] then some [n0 * 4 + n1 / 16, n1 % 16 * 16 + n2 / 4] else none
                else
                  match charToSextet c3, base64Decode cs with
                  | some n3, some bs =>
                      some ((n0 * 4 + n1 / 16) :: (n1 % 16 * 16 + n2 / 4) ::
                            (n2 % 4 * 64 + n3) :: bs)
                  | _, _ => none
            | none => none
      | _, _ => none
  | _ => none

/-- The split of a character list at every colon, matching the JavaScript call
payload.split of docCrypto.ts with a single-character separator and no limit:
the empty string splits to one empty part, and n separators yield n + 1 parts. -/
def splitOnColon : List Char → List (List Char)
  | [] => [[]]
  | c :: cs =>
      if c = ':' then [] :: splitOnColon cs
      else
        match splitOnColon cs with
        | [] => [[c]]
        | p :: ps => (c :: p) :: ps

/-- Decodes one UTF-8 scalar from the front of a byte list, returning the
character and the remaining bytes; none on a malformed prefix (stray
continuation byte, overlong form, surrogate, out-of-range scalar, or
truncation). -/
def utf8DecodeChar : List Nat → Option (Char × List Nat)
  | [] => none
  | b0 :: bs =>
      if b0 < 0x80 then some (Char.ofNat b0, bs)
      else if b0 < 0xC2 then none
      else if b0 < 0xE0 then
        match bs with
        | b1 :: bs1 =>
            if 0x80 ≤ b1 ∧ b1 < 0xC0 then
              some (Char.ofNat ((b0 - 0xC0) * 64 + (b1 - 0x80)), bs1)
            else none
        | [] => none
      else if b0 < 0xF0 then
        match bs with
        | b1 :: b2 :: bs2 =>
            if (0x80 ≤ b1 ∧ b1 < 0xC0) ∧ (0x80 ≤ b2 ∧ b2 < 0xC0) then
              if (b0 - 0xE0) * 4096 + (b1 - 0x80) * 64 + (b2 - 0x80) < 0x800 ∨
                 (0xD800 ≤ (b0 - 0xE0) * 4096 + (b1 - 0x80) * 64 + (b2 - 0x80) ∧
                  (b0 - 0xE0) * 4096 + (b1 - 0x80) * 64 + (b2 - 0x80) < 0xE000) then none
              else some (Char.ofNat ((b0 - 0xE0) * 4096 + (b1 - 0x80) * 64 + (b2 - 0x80)), bs2)
            else none
        | _ => none
      else if b0 < 0xF5 then
        match bs with
        | b1 :: b2 :: b3 :: bs3 =>
            if (0x80 ≤ b1 ∧ b1 < 0xC0) ∧ (0x80 ≤ b2 ∧ b2 < 0xC0) ∧ (0x80 ≤ b3 ∧ b3 < 0xC0) then
              if (b0 - 0xF0) * 262144 + (b1 - 0x80) * 4096 + (b2 - 0x80) * 64 + (b3 - 0x80) < 0x10000 ∨
                 0x110000 ≤ (b0 - 0xF0) * 262144 + (b1 - 0x80) * 4096 + (b2 - 0x80) * 64 + (b3 - 0x80) then none
              else some (Char.ofNat ((b0 - 0xF0) * 262144 + (b1 - 0x80) * 4096 + (b2 - 0x80) * 64 + (b3 - 0x80)), bs3)
            else none
        | _ => none
      else none

/-- Fuel-indexed driver for the lossy UTF-8 decoder; the fuel is an upper bound
on the number of bytes consumed and makes the recursion structural. -/
def utf8DecodeLoop : Nat → List Nat → List Char
  | 0, _ => []
  | _, [] => []
  | fuel + 1, b :: bs =>
      match utf8DecodeChar (b :: bs) with
      | some (c, rest) => c :: utf8DecodeLoop fuel rest
      | none => Char.ofNat 0xFFFD :: utf8DecodeLoop fuel bs

/-- Modelled from the spec: the TextDecoder of the Web API in its default
non-fatal mode, which replaces a malformed sequence with U+FFFD instead of
throwing.  On well-formed UTF-8 input (the only case any theorem below relies
on) it is the exact inverse of utf8EncodeList. -/
def utf8DecodeList (bs : List Nat) : List Char :=
  utf8DecodeLoop bs.length bs

/-- Modelled from the spec: the cryptographic primitives that docCrypto.ts
obtains from the Web Crypto API.  sha256 is the digest used for key
derivation; aesGcmEncrypt and aesGcmDecrypt are the AES-GCM authenticated
cipher, taking key bytes, nonce bytes and data bytes; decryption returns none
when authentication fails.  The repository only calls these primitives, so the
theorems below are stated for an arbitrary instance, with the algebraic facts
they need (round trip, byte-valued output) as explicit hypotheses. -/
structure WebCrypto where
  sha256 : List Nat → List Nat
  aesGcmEncrypt : List Nat → List Nat → List Nat → List Nat
  aesGcmDecrypt : List Nat → List Nat → List Nat → Option (List Nat)

/-- deriveAesKeyFromSecret of docCrypto.ts: SHA-256 over the UTF-8 bytes of the
decimal representation of the secret. -/
def deriveAesKeyFromSecret (wc : WebCrypto) (secret : Nat) : List Nat :=
  wc.sha256 (utf8EncodeList (Nat.repr secret).data)

/-- encryptDocumentBody of docCrypto.ts.  The Web API draws the 12-byte nonce
from a secure random source; nondeterminism is modelled by passing the nonce
as the explicit parameter iv. -/
def encryptDocumentBody (wc : WebCrypto) (secret : Nat) (iv : List Nat)
    (plaintext : String) : String :=
  let key := deriveAesKeyFromSecret wc secret
  let clearBytes := utf8EncodeList plaintext.data
  let ciphertext := wc.aesGcmEncrypt key iv clearBytes
  String.mk ("v1".data ++ ':' :: base64Encode iv ++ ':' :: base64Encode ciphertext)

/-- The distinguishable failure kinds of decryptDocumentBody: the thrown
Error with message Unsupported encrypted body format, the InvalidCharacterError
thrown by atob on ill-formed base64, and the OperationError with which the Web
Crypto API rejects a failed AES-GCM authentication. -/
inductive DecryptError where
  | FormatError
  | Base64Error
  | AuthError
deriving Repr, DecidableEq

/-- decryptDocumentBody of docCrypto.ts: the empty payload short-circuits to
the empty string; otherwise the payload must split at colons into exactly
three parts with leading tag v1; the second and third parts are base64-decoded
into nonce and ciphertext and handed to AES-GCM. -/
def decryptDocumentBody (wc : WebCrypto) (secret : Nat) (payload : String) :
    Except DecryptError String :=
  if payload.data = [] then .ok ""
  else
    match splitOnColon payload.data with
    | [p0, p1, p2] =>
        if p0 = "v1".data then
          let key := deriveAesKeyFromSecret wc secret
          match base64Decode p1, base64Decode p2 with
          | some iv, some ciphertext =>
              match wc.aesGcmDecrypt key iv ciphertext with
              | some clear => .ok (String.mk (utf8DecodeList clear))
              | none => .error .AuthError
          | _, _ => .error .Base64Error
        else .error .FormatError
    | _ => .error .FormatError

/-! Concrete states and crypto instances used to instantiate the theorems
below on explicit inputs. -/

/-- A concrete WebCrypto instance whose cipher is the identity: it satisfies
the AEAD round-trip hypothesis and maps bytes to bytes. -/
def wcId : WebCrypto :=
  { sha256 := fun x => x, aesGcmEncrypt := fun _ _ p => p, aesGcmDecrypt := fun _ _ c => some c }

/-- A concrete WebCrypto instance whose decryption always rejects, standing in
for an authentication failure. -/
def wcNone : WebCrypto :=
  { sha256 := fun x => x, aesGcmEncrypt := fun _ _ p => p, aesGcmDecrypt := fun _ _ _ => none }

/-- A concrete document: id 5, owned by address 1. -/
def docA : Document :=
  { name := "a", encryptedBody := "", encryptedKey := 7, owner := 1,
    createdAt := 3, updatedAt := 3, version := 0 }

/-- A concrete ledger state holding docA under id 5, with its owner 1 as the
sole editor. -/
def stA : LedgerState :=
  { documents := fun i => if i = 5 then docA else emptyDocument,
    editors := fun i a => if i = 5 ∧ a = 1 then true else false,
    documentIds := [5] }

/-- stA after the owner granted address 2 access to document 5: address 2 is
an editor of document 5 but not its owner. -/
def stAEd2 : LedgerState :=
  { stA with editors := fun i a => if i = 5 ∧ a = 2 then true else stA.editors i a }

/-- A concrete document whose uint32 version counter stands at its maximum. -/
def docMax : Document :=
  { docA with version := 2 ^ 32 - 1 }

/-- A concrete ledger state holding docMax under id 5. -/
def stMax : LedgerState :=
  { documents := fun i => if i = 5 then docMax else emptyDocument,
    editors := fun i a => if i = 5 ∧ a = 1 then true else false,
    documentIds := [5] }

/-- stMax after the owner granted address 2 access to document 5. -/
def stMaxGranted : LedgerState :=
  { stMax with editors := fun i a => if i = 5 ∧ a = 2 then true else stMax.editors i a }

/-- A concrete ledger state whose registry holds two ids. -/
def stTwo : LedgerState :=
  { documents := fun _ => emptyDocument, editors := fun _ _ => false, documentIds := [1, 2] }

/-- The id of the document named a. -/
def didA : Nat := computeDocumentId "a"

/-- The state reached from a fresh deployment by createDocument of the
document named a, called by address 1 at time 3. -/
def stCreated : LedgerState :=
  match createDocument initialState 1 3 "a" 7 [] with
  | .ok (s, _) => s
  | .error _ => initialState

/-- stCreated after two successful updateEncryptedBody calls by the owner. -/
def stUpdated2 : LedgerState :=
  match runUpdates didA stCreated [(1, 5, "b1"), (1, 6, "b2")] with
  | some s => s
  | none => initialState

/-- stA after one successful updateEncryptedBody call by the owner. -/
def stAUpd : LedgerState :=
  match updateEncryptedBody stA 1 7 5 "x" with
  | .ok s => s
  | .error _ => stA

/-- The id of the document named b. -/
def didB : Nat := computeDocumentId "b"

/-- stA after address 2 created a second document named b. -/
def stB : LedgerState :=
  match createDocument stA 2 4 "b" 8 [] with
  | .ok (st, _) => st
  | .error _ => stA

/-! Helper lemmas. -/

theorem utf8EncodeChar_ne_nil (c : Char) : utf8EncodeChar c ≠ [] := by
  show (if c.toNat < 0x80 then [c.toNat]
    else if c.toNat < 0x800 then [0xC0 + c.toNat / 64, 0x80 + c.toNat % 64]
    else if c.toNat < 0x10000 then
      [0xE0 + c.toNat / 4096, 0x80 + c.toNat / 64 % 64, 0x80 + c.toNat % 64]
    else [0xF0 + c.toNat / 262144, 0x80 + c.toNat / 4096 % 64,
          0x80 + c.toNat / 64 % 64, 0x80 + c.toNat % 64]) ≠ []
  split
  · simp
  · split
    · simp
    · split <;> simp

theorem utf8EncodeList_ne_nil {name : String} (h : name ≠ "") :
    utf8EncodeList name.data ≠ [] := by
  intro henc
  apply h
  cases name with
  | mk data =>
    cases data with
    | nil => rfl
    | cons c cs =>
        rw [utf8EncodeList, List.append_eq_nil] at henc
        exact absurd henc.1 (utf8EncodeChar_ne_nil c)

/-- Inversion of a successful createDocument call. -/
theorem createDocument_ok {s : LedgerState} {sender now : Nat} {name : String}
    {k : Nat} {p : List Nat} {s' : LedgerState} {did : Nat}
    (h : createDocument s sender now name k p = .ok (s', did)) :
    did = computeDocumentId name ∧
    (s.documents (computeDocumentId name)).owner = 0 ∧
    s' = { documents := fun i => if i = computeDocumentId name then
             { name := name, encryptedBody := "", encryptedKey := fheFromExternal k p,
               owner := sender, createdAt := now % 2 ^ 40, updatedAt := now % 2 ^ 40,
               version := 0 }
             else s.documents i,
           editors := fun i a => if i = computeDocumentId name ∧ a = sender then true
             else s.editors i a,
           documentIds := s.documentIds ++ [computeDocumentId name] } := by
  simp only [createDocument] at h
  split at h
  · exact absurd h (by simp)
  · split at h
    · exact absurd h (by simp)
    · rw [Except.ok.injEq, Prod.mk.injEq] at h
      refine ⟨h.2.symm, by simp_all, h.1.symm⟩

/-- Inversion of a successful updateEncryptedBody call. -/
theorem updateEncryptedBody_ok {s : LedgerState} {sender now did : Nat} {body : String}
    {s' : LedgerState}
    (h : updateEncryptedBody s sender now did body = .ok s') :
    (s.documents did).owner ≠ 0 ∧ s.editors did sender = true ∧
    (s.documents did).version + 1 < 2 ^ 32 ∧
    s' = { s with documents := (fun i => if i = did then
             { s.documents did with encryptedBody := body, updatedAt := now % 2 ^ 40, version := (s.documents did).version + 1 }
             else s.documents i) } := by
  simp only [updateEncryptedBody] at h
  split at h
  · exact absurd h (by simp)
  · split at h
    · exact absurd h (by simp)
    · split at h
      · exact absurd h (by simp)
      · rw [Except.ok.injEq] at h
        refine ⟨by assumption, by simp_all, by omega, h.symm⟩

/-- Inversion of a successful grantAccess call. -/
theorem grantAccess_ok {s : LedgerState} {sender did grantee : Nat} {s' : LedgerState}
    (h : grantAccess s sender did grantee = .ok s') :
    grantee ≠ 0 ∧ (s.documents did).owner ≠ 0 ∧ (s.documents did).owner = sender ∧
    s' = { s with editors := (fun i a =>
             if i = did ∧ a = grantee then true else s.editors i a) } := by
  simp only [grantAccess] at h
  split at h
  · exact absurd h (by simp)
  · split at h
    · exact absurd h (by simp)
    · split at h
      · exact absurd h (by simp)
      · rw [Except.ok.injEq] at h
        refine ⟨by assumption, by assumption, by simp_all, h.symm⟩

/-- Effect of a successful run of updateEncryptedBody calls on the targeted
document: the version advances by the number of calls and the body is the last
written value (or the starting body when the run is empty). -/
theorem runUpdates_some {did : Nat} :
    ∀ (us : List (Nat × Nat × String)) (s s' : LedgerState),
      runUpdates did s us = some s' →
      (s'.documents did).version = (s.documents did).version + us.length ∧
      (s'.documents did).encryptedBody =
        (us.map fun u => u.2.2).getLastD (s.documents did).encryptedBody
  | [], s, s', h => by
      simp only [runUpdates, Option.some.injEq] at h
      subst h
      simp
  | u :: us, s, s', h => by
      simp only [runUpdates] at h
      split at h
      next s1 hu =>
        obtain ⟨-, -, -, hs1⟩ := updateEncryptedBody_ok hu
        have ih := runUpdates_some us s1 s' h
        subst hs1
        simp only [List.map_cons, List.getLastD_cons, List.length_cons]
        simp only [if_pos rfl] at ih
        refine ⟨?_, ?_⟩
        · have h1 := ih.1
          simp at h1
          omega
        · have h2 := ih.2
          simpa using h2
      next e hu => exact absurd h (by simp)

/-- C1: a document created via createDocument starts with version 0 and an
empty encryptedBody, and after any sequence of N successful
updateEncryptedBody calls on that document its version equals N and its
encryptedBody equals the body argument of the last successful update (the
getLastD default only applies to the empty sequence, where the body is still
the empty creation body). -/
theorem C1_create_then_updates {s s0 sN : LedgerState} {sender now encKey : Nat}
    {name : String} {inputProof : List Nat} {did : Nat} {us : List (Nat × Nat × String)}
    (hc : createDocument s sender now name encKey inputProof = .ok (s0, did))
    (hr : runUpdates did s0 us = some sN) :
    (s0.documents did).version = 0 ∧ (s0.documents did).encryptedBody = "" ∧
    (sN.documents did).version = us.length ∧
    (sN.documents did).encryptedBody = (us.map fun u => u.2.2).getLastD "" := by
  obtain ⟨hdid, hfree, hs0⟩ := createDocument_ok hc
  subst hdid
  have hrun := runUpdates_some us s0 sN hr
  have hv : (s0.documents (computeDocumentId name)).version = 0 := by
    subst hs0; simp
  have hb : (s0.documents (computeDocumentId name)).encryptedBody = "" := by
    subst hs0; simp
  rw [hv, hb] at hrun
  exact ⟨hv, hb, by omega, hrun.2⟩

/-- Witness for C1: address 1 creates the document named a on a fresh ledger
and performs two successful updates; the version is then 2 and the body is the
last written value. -/
theorem C1_witness :
    (stCreated.documents didA).version = 0 ∧
    (stCreated.documents didA).encryptedBody = "" ∧
    (stUpdated2.documents didA).version = 2 ∧
    (stUpdated2.documents didA).encryptedBody = "b2" :=
  @C1_create_then_updates initialState stCreated stUpdated2 1 3 7 "a" [] didA
    [(1, 5, "b1"), (1, 6, "b2")] rfl rfl

/-- C2: creating a document twice with the same non-empty name: the first call
succeeds and returns the id computed from the name, the second call fails with
DocumentAlreadyExists at that id, and the failing call returns an error
without a successor state (EVM reverts are all-or-nothing in this embedding),
so the owner and creation time of the document remain those of the first
call. -/
theorem C2_duplicate_create {s : LedgerState} {name : String} {a1 a2 t1 t2 k1 k2 : Nat}
    {p1 p2 : List Nat}
    (hname : name ≠ "")
    (hfree : (s.documents (computeDocumentId name)).owner = 0)
    (ha1 : a1 ≠ 0) :
    ∃ s1, createDocument s a1 t1 name k1 p1 = .ok (s1, computeDocumentId name) ∧
      createDocument s1 a2 t2 name k2 p2 =
        .error (.DocumentAlreadyExists (computeDocumentId name)) ∧
      (s1.documents (computeDocumentId name)).owner = a1 ∧
      (s1.documents (computeDocumentId name)).createdAt = t1 % 2 ^ 40 := by
  have hne := utf8EncodeList_ne_nil hname
  have h1 : createDocument s a1 t1 name k1 p1 =
      .ok ({ documents := fun i => if i = computeDocumentId name then
               { name := name, encryptedBody := "", encryptedKey := fheFromExternal k1 p1,
                 owner := a1, createdAt := t1 % 2 ^ 40, updatedAt := t1 % 2 ^ 40, version := 0 }
               else s.documents i,
             editors := fun i a => if i = computeDocumentId name ∧ a = a1 then true
               else s.editors i a,
             documentIds := s.documentIds ++ [computeDocumentId name] },
           computeDocumentId name) := by
    simp only [createDocument]
    rw [if_neg hne, if_neg (by simp [hfree])]
  refine ⟨_, h1, ?_, by simp, by simp⟩
  simp only [createDocument]
  rw [if_neg hne, if_pos (by simp [ha1])]

/-- Witness for C2: instantiated on a fresh ledger, the name a, creator 1 and
timestamps 3 and 9. -/
theorem C2_witness :
    ∃ s1, createDocument initialState 1 3 "a" 7 [] = .ok (s1, computeDocumentId "a") ∧
      createDocument s1 2 9 "a" 8 [] =
        .error (.DocumentAlreadyExists (computeDocumentId "a")) ∧
      (s1.documents (computeDocumentId "a")).owner = 1 ∧
      (s1.documents (computeDocumentId "a")).createdAt = 3 % 2 ^ 40 :=
  C2_duplicate_create (by decide) rfl (by decide)

/-- C3 (amended): the creator is an editor immediately after creation; after a
successful grantAccess the grantee is an editor and - provided the version
counter of the document has not reached the uint32 maximum, at which the
checked increment reverts - a subsequent updateEncryptedBody call by the
grantee succeeds; and an updateEncryptedBody call on an existing document by a
caller without the editor flag (one never granted access and not the owner)
fails with NotEditor naming the document and the caller. -/
theorem C3_editor_rights (s : LedgerState) :
    (∀ sender now name encKey inputProof s' did,
       createDocument s sender now name encKey inputProof = .ok (s', did) →
       isEditor s' did sender = true) ∧
    (∀ sender did grantee s',
       grantAccess s sender did grantee = .ok s' →
       isEditor s' did grantee = true ∧
       ((s.documents did).version + 1 < 2 ^ 32 →
         ∀ now body, ∃ s2, updateEncryptedBody s' grantee now did body = .ok s2)) ∧
    (∀ caller did now body,
       (s.documents did).owner ≠ 0 → s.editors did caller = false →
       updateEncryptedBody s caller now did body = .error (.NotEditor did caller)) := by
  refine ⟨?_, ?_, ?_⟩
  · intro sender now name encKey inputProof s' did hc
    obtain ⟨hdid, hfree, hs'⟩ := createDocument_ok hc
    subst hdid hs'
    simp [isEditor]
  · intro sender did grantee s' hg
    obtain ⟨hgz, hown, hsend, hs'⟩ := grantAccess_ok hg
    have hdocs : s'.documents = s.documents := by rw [hs']
    have hed : s'.editors did grantee = true := by rw [hs']; simp
    refine ⟨hed, fun hv now body => ?_⟩
    refine ⟨{ s' with documents := fun i => if i = did then
                { s'.documents did with encryptedBody := body, updatedAt := now % 2 ^ 40, version := (s'.documents did).version + 1 }
                else s'.documents i }, ?_⟩
    simp only [updateEncryptedBody]
    rw [if_neg (by rw [hdocs]; exact hown), if_neg (by simp [hed]),
        if_neg (by rw [hdocs]; omega)]
  · intro caller did now body hown hed
    simp only [updateEncryptedBody]
    rw [if_neg hown, if_pos hed]

/-- Counterexample to C3 as stated: in a ledger state whose document has
version 2 ^ 32 - 1, the owner successfully grants access to address 2 and the
grantee is an editor, yet the subsequent updateEncryptedBody call by the
grantee reverts with an arithmetic overflow panic instead of succeeding. -/
theorem C3_counterexample :
    grantAccess stMax 1 5 2 = .ok stMaxGranted ∧
    isEditor stMaxGranted 5 2 = true ∧
    updateEncryptedBody stMaxGranted 2 9 5 "b" = .error .PanicOverflow :=
  ⟨rfl, rfl, rfl⟩

/-- Witness for C3: on concrete states with version 0, the creator is an
editor after creation, a granted address can update, and a stranger (address
3) is refused with NotEditor. -/
theorem C3_witness :
    isEditor stCreated didA 1 = true ∧
    (isEditor stAEd2 5 2 = true ∧ ∃ s2, updateEncryptedBody stAEd2 2 9 5 "w" = .ok s2) ∧
    updateEncryptedBody stA 3 9 5 "w" = .error (.NotEditor 5 3) := by
  have hg := (C3_editor_rights stA).2.1 1 5 2 stAEd2 rfl
  exact ⟨(C3_editor_rights initialState).1 1 3 "a" 7 [] stCreated didA rfl,
         ⟨hg.1, hg.2 (by decide) 9 "w"⟩,
         (C3_editor_rights stA).2.2 3 5 9 "w" (by decide) rfl⟩

/-- C4: grantAccess validates in order: a zero grantee fails with
InvalidAddress; then a missing document (stored owner zero) fails with
DocumentNotFound; then a caller other than the owner fails with NotOwner -
the editor flag of the caller plays no role in the third check, so the
statement holds for every editor configuration. -/
theorem C4_grant_errors (s : LedgerState) (sender did grantee : Nat) :
    (grantee = 0 → grantAccess s sender did grantee = .error .InvalidAddress) ∧
    (grantee ≠ 0 → (s.documents did).owner = 0 →
       grantAccess s sender did grantee = .error (.DocumentNotFound did)) ∧
    (grantee ≠ 0 → (s.documents did).owner ≠ 0 → (s.documents did).owner ≠ sender →
       grantAccess s sender did grantee = .error (.NotOwner did sender)) := by
  refine ⟨?_, ?_, ?_⟩
  · intro hz
    simp only [grantAccess]
    rw [if_pos hz]
  · intro hz hown
    simp only [grantAccess]
    rw [if_neg hz, if_pos hown]
  · intro hz hown hns
    simp only [grantAccess]
    rw [if_neg hz, if_neg hown, if_pos hns]

/-- Witness for C4, instantiated on stAEd2, where address 2 holds the editor
flag on document 5 but is not its owner: grant by 2 still fails with NotOwner,
a zero grantee fails with InvalidAddress, and an unknown id fails with
DocumentNotFound. -/
theorem C4_witness :
    isEditor stAEd2 5 2 = true ∧
    grantAccess stAEd2 2 5 0 = .error .InvalidAddress ∧
    grantAccess stAEd2 2 99 3 = .error (.DocumentNotFound 99) ∧
    grantAccess stAEd2 2 5 3 = .error (.NotOwner 5 2) :=
  ⟨rfl,
   (C4_grant_errors stAEd2 2 5 0).1 rfl,
   (C4_grant_errors stAEd2 2 99 3).2.1 (by decide) rfl,
   (C4_grant_errors stAEd2 2 5 3).2.2 (by decide) (by decide) (by decide)⟩

/-- C8: updateEncryptedBody changes only the body, the update timestamp and
the version of the targeted document, leaving name, owner, creation time and
key handle of every document, the whole editor relation and the id registry
unchanged; grantAccess changes no document and removes no editor flag;
createDocument leaves every existing document unchanged, removes no editor
flag and removes no registry entry.  No operation deletes a document or a
permission entry. -/
theorem C8_frame (s : LedgerState) :
    (∀ sender now did body s',
       updateEncryptedBody s sender now did body = .ok s' →
       (∀ i, (s'.documents i).name = (s.documents i).name ∧
             (s'.documents i).owner = (s.documents i).owner ∧
             (s'.documents i).createdAt = (s.documents i).createdAt ∧
             (s'.documents i).encryptedKey = (s.documents i).encryptedKey) ∧
       s'.editors = s.editors ∧ s'.documentIds = s.documentIds) ∧
    (∀ sender did grantee s',
       grantAccess s sender did grantee = .ok s' →
       s'.documents = s.documents ∧ s'.documentIds = s.documentIds ∧
       (∀ i a, s.editors i a = true → s'.editors i a = true)) ∧
    (∀ sender now name encKey inputProof s' did,
       createDocument s sender now name encKey inputProof = .ok (s', did) →
       (∀ i, (s.documents i).owner ≠ 0 → s'.documents i = s.documents i) ∧
       (∀ i a, s.editors i a = true → s'.editors i a = true) ∧
       (∀ i, i ∈ s.documentIds → i ∈ s'.documentIds)) := by
  refine ⟨?_, ?_, ?_⟩
  · intro sender now did body s' hu
    obtain ⟨-, -, -, hs'⟩ := updateEncryptedBody_ok hu
    subst hs'
    refine ⟨fun i => ?_, rfl, rfl⟩
    by_cases hi : i = did
    · subst hi
      simp
    · simp [hi]
  · intro sender did grantee s' hg
    obtain ⟨-, -, -, hs'⟩ := grantAccess_ok hg
    subst hs'
    refine ⟨rfl, rfl, fun i a h => ?_⟩
    by_cases hc : i = did ∧ a = grantee
    · simp [hc]
    · simpa [hc] using h
  · intro sender now name encKey inputProof s' did hc
    obtain ⟨hdid, hfree, hs'⟩ := createDocument_ok hc
    subst hs'
    refine ⟨fun i h => ?_, fun i a h => ?_, fun i h => ?_⟩
    · by_cases hi : i = computeDocumentId name
      · subst hi
        exact absurd hfree h
      · simp [hi]
    · by_cases hca : i = computeDocumentId name ∧ a = sender
      · simp [hca]
      · simpa [hca] using h
    · simp [h]

/-- Witness for C8: instantiated on stA with one update (to stAUpd), one grant
(to stAEd2) and one creation of a second document (to stB). -/
theorem C8_witness :
    (stAUpd.documents 5).name = (stA.documents 5).name ∧
    (stAUpd.documents 5).owner = (stA.documents 5).owner ∧
    (stAUpd.documents 5).createdAt = (stA.documents 5).createdAt ∧
    (stAUpd.documents 5).encryptedKey = (stA.documents 5).encryptedKey ∧
    stAUpd.editors = stA.editors ∧
    stAUpd.documentIds = stA.documentIds ∧
    stAEd2.documents = stA.documents ∧
    stAEd2.documentIds = stA.documentIds ∧
    stAEd2.editors 5 1 = true ∧
    stB.documents 5 = stA.documents 5 ∧
    stB.editors 5 1 = true ∧
    5 ∈ stB.documentIds := by
  obtain ⟨hu1, hu2, hu3⟩ := (C8_frame stA).1 1 7 5 "x" stAUpd rfl
  obtain ⟨hg1, hg2, hg3⟩ := (C8_frame stA).2.1 1 5 2 stAEd2 rfl
  obtain ⟨hc1, hc2, hc3⟩ := (C8_frame stA).2.2 2 4 "b" 8 [] stB didB rfl
  have h5 := hu1 5
  exact ⟨h5.1, h5.2.1, h5.2.2.1, h5.2.2.2, hu2, hu3, hg1, hg2, hg3 5 1 rfl,
         hc1 5 (by decide), hc2 5 1 rfl, hc3 5 (by decide)⟩

/-- C9: a second grantAccess call with the same caller and grantee after a
successful first one succeeds and returns exactly the state left by the first
call: the editor relation and every document record are unchanged by the
repeated grant. -/
theorem C9_grant_idempotent {s s1 : LedgerState} {sender did grantee : Nat}
    (h : grantAccess s sender did grantee = .ok s1) :
    grantAccess s1 sender did grantee = .ok s1 := by
  obtain ⟨hg, hown, hsend, hs1⟩ := grantAccess_ok h
  have hdocs : s1.documents = s.documents := by rw [hs1]
  have hedit : s1.editors = (fun i a =>
      if i = did ∧ a = grantee then true else s.editors i a) := by
    rw [hs1]
  simp only [grantAccess]
  rw [if_neg hg, if_neg (by rw [hdocs]; exact hown),
      if_neg (by rw [hdocs]; simp [hsend])]
  refine congrArg Except.ok ?_
  have he : (fun i a => if i = did ∧ a = grantee then true else s1.editors i a)
      = s1.editors := by
    funext i a
    by_cases hc : i = did ∧ a = grantee
    · rw [if_pos hc, hedit]
      simp [hc]
    · rw [if_neg hc]
  rw [he]

/-- Witness for C9: address 1 grants address 2 access to document 5 in stA,
reaching stAEd2; repeating the grant returns stAEd2 unchanged. -/
theorem C9_witness : grantAccess stAEd2 1 5 2 = .ok stAEd2 :=
  @C9_grant_idempotent stA stAEd2 1 5 2 rfl

/-- The copy loop of getDocumentIds, rendered as a map over an index range,
produces the slice of the registry starting at off of length k. -/
theorem getD_map_range (l : List Nat) :
    ∀ (k off : Nat), off + k ≤ l.length →
      (List.range k).map (fun j => l.getD (off + j) 0) = (l.drop off).take k := by
  intro k
  induction k with
  | zero =>
      intro off h
      simp
  | succ k ih =>
      intro off h
      have hoff : off < l.length := by
        omega
      rw [List.range_succ_eq_map, List.map_cons, List.map_map,
          List.drop_eq_getElem_cons hoff, List.take_succ_cons]
      congr 1
      · rw [Nat.add_zero, List.getD_eq_getElem?_getD, List.getElem?_eq_getElem hoff]
        rfl
      · rw [← ih (off + 1) (by omega)]
        apply List.map_congr_left
        intro a _
        show l.getD (off + (a + 1)) 0 = l.getD (off + 1 + a) 0
        congr 1
        omega

/-- C5 (amended): provided offset + limit stays below 2 ^ 256 (so the checked
uint256 addition inside getDocumentIds cannot revert), pagination behaves as
the claim states: an offset at or past the count yields the empty sequence; an
offset below the count with offset + limit past the count yields exactly the
registry tail from offset, in order; and a returned page never holds more than
limit ids. -/
theorem C5_pagination (s : LedgerState) (offset limit : Nat)
    (hov : offset + limit < 2 ^ 256) :
    (getDocumentCount s ≤ offset → getDocumentIds s offset limit = .ok []) ∧
    (offset < getDocumentCount s → getDocumentCount s < offset + limit →
       getDocumentIds s offset limit = .ok (s.documentIds.drop offset)) ∧
    (∀ ids, getDocumentIds s offset limit = .ok ids → ids.length ≤ limit) := by
  refine ⟨?_, ?_, ?_⟩
  · intro hc
    simp only [getDocumentCount] at hc
    simp only [getDocumentIds]
    rw [if_pos hc]
  · intro h1 h2
    simp only [getDocumentCount] at h1 h2
    simp only [getDocumentIds]
    rw [if_neg (by omega), if_neg (by omega), if_pos h2]
    rw [getD_map_range s.documentIds (s.documentIds.length - offset) offset (by omega)]
    rw [show s.documentIds.length - offset = (s.documentIds.drop offset).length by simp,
        List.take_length]
  · intro ids hids
    simp only [getDocumentIds] at hids
    split at hids
    · simp only [Except.ok.injEq] at hids
      subst hids
      simp
    · split at hids
      · exact absurd hids (by simp)
      · split at hids
        · simp only [Except.ok.injEq] at hids
          subst hids
          simp only [List.length_map, List.length_range]
          omega
        · simp only [Except.ok.injEq] at hids
          subst hids
          simp only [List.length_map, List.length_range]
          omega

/-- Counterexample to C5 as stated: with two documents in the registry, an
offset of 1 (strictly below the count) and the over-large limit 2 ^ 256 - 1,
the checked uint256 addition offset + limit inside getDocumentIds overflows
and the call reverts with a panic instead of returning the remaining tail. -/
theorem C5_counterexample :
    1 < getDocumentCount stTwo ∧
    getDocumentIds stTwo 1 (2 ^ 256 - 1) = .error .PanicOverflow ∧
    getDocumentIds stTwo 1 (2 ^ 256 - 1) ≠ .ok [2] := by
  have he : getDocumentIds stTwo 1 (2 ^ 256 - 1) = .error .PanicOverflow := rfl
  refine ⟨by decide, he, ?_⟩
  rw [he]
  simp

/-- Witness for C5, on the two-document registry: an offset at the count
yields the empty page, offset 1 with limit 7 yields exactly the tail, and the
returned page lengths are within the limits. -/
theorem C5_witness :
    (getDocumentIds stTwo 2 7 = .ok []) ∧
    (getDocumentIds stTwo 1 7 = .ok [2]) ∧
    (∀ ids, getDocumentIds stTwo 1 7 = .ok ids → ids.length ≤ 7) := by
  have h := C5_pagination stTwo 1 7 (by decide)
  have h2 := C5_pagination stTwo 2 7 (by decide)
  refine ⟨h2.1 (by decide), ?_, h.2.2⟩
  have := h.2.1 (by decide) (by decide)
  simpa using this

/-- getDocument fails with DocumentNotFound exactly when the stored owner of
the id is the zero address. -/
theorem getDocument_notfound_iff (s : LedgerState) (did : Nat) :
    getDocument s did = .error (.DocumentNotFound did) ↔
    (s.documents did).owner = 0 := by
  unfold getDocument
  split
  · simp_all
  · simp_all

/-- updateEncryptedBody fails with DocumentNotFound exactly when the stored
owner of the id is the zero address. -/
theorem updateEncryptedBody_notfound_iff (s : LedgerState) (sender now did : Nat)
    (body : String) :
    updateEncryptedBody s sender now did body = .error (.DocumentNotFound did) ↔
    (s.documents did).owner = 0 := by
  simp only [updateEncryptedBody]
  split
  · simp_all
  · split
    · simp_all
    · split
      · simp_all
      · simp_all

/-- For a nonzero grantee, grantAccess fails with DocumentNotFound exactly
when the stored owner of the id is the zero address. -/
theorem grantAccess_notfound_iff (s : LedgerState) (sender did grantee : Nat)
    (hg : grantee ≠ 0) :
    grantAccess s sender did grantee = .error (.DocumentNotFound did) ↔
    (s.documents did).owner = 0 := by
  simp only [grantAccess]
  rw [if_neg hg]
  split
  · simp_all
  · split
    · simp_all
    · simp_all

/-- createDocument preserves the registry-membership/owner correspondence. -/
theorem create_preserves_mem_iff {s : LedgerState} {sender now encKey : Nat}
    {name : String} {inputProof : List Nat} {s' : LedgerState} {did : Nat}
    (hsender : sender ≠ 0)
    (hc : createDocument s sender now name encKey inputProof = .ok (s', did))
    (ih : ∀ i, i ∈ s.documentIds ↔ (s.documents i).owner ≠ 0) :
    ∀ i, i ∈ s'.documentIds ↔ (s'.documents i).owner ≠ 0 := by
  obtain ⟨hdid, hfree, hs'⟩ := createDocument_ok hc
  subst hs'
  intro i
  by_cases hi : i = computeDocumentId name
  · subst hi
    simp [hsender]
  · simp only [List.mem_append, List.mem_singleton]
    simp [hi, ih i]

/-- updateEncryptedBody preserves the registry-membership/owner
correspondence. -/
theorem update_preserves_mem_iff {s : LedgerState} {sender now did : Nat}
    {body : String} {s' : LedgerState}
    (hu : updateEncryptedBody s sender now did body = .ok s')
    (ih : ∀ i, i ∈ s.documentIds ↔ (s.documents i).owner ≠ 0) :
    ∀ i, i ∈ s'.documentIds ↔ (s'.documents i).owner ≠ 0 := by
  obtain ⟨-, -, -, hs'⟩ := updateEncryptedBody_ok hu
  subst hs'
  intro i
  by_cases hi : i = did
  · subst hi
    simpa using ih i
  · simpa [hi] using ih i

/-- grantAccess preserves the registry-membership/owner correspondence. -/
theorem grant_preserves_mem_iff {s : LedgerState} {sender did grantee : Nat}
    {s' : LedgerState}
    (hg : grantAccess s sender did grantee = .ok s')
    (ih : ∀ i, i ∈ s.documentIds ↔ (s.documents i).owner ≠ 0) :
    ∀ i, i ∈ s'.documentIds ↔ (s'.documents i).owner ≠ 0 := by
  obtain ⟨-, -, -, hs'⟩ := grantAccess_ok hg
  subst hs'
  exact ih

/-- In every reachable ledger state, an id is in the registry exactly when its
stored owner is nonzero. -/
theorem reachable_mem_iff {s : LedgerState} (h : Reachable s) :
    ∀ i, i ∈ s.documentIds ↔ (s.documents i).owner ≠ 0 := by
  induction h with
  | init =>
      intro i
      simp [initialState, emptyDocument]
  | create hs hsender hc ih => exact create_preserves_mem_iff hsender hc ih
  | update hs hsender hu ih => exact update_preserves_mem_iff hu ih
  | grant hs hsender hg ih => exact grant_preserves_mem_iff hg ih

/-- C10: in every state reachable from a fresh deployment, a document id is in
the registry exactly when its stored owner is nonzero (so no registered record
ever carries a zero owner), and getDocument, updateEncryptedBody and
grantAccess (with a valid, nonzero grantee, since the InvalidAddress check
precedes the existence check) fail with DocumentNotFound exactly on ids whose
stored owner is zero. -/
theorem C10_exists_iff_owner (s : LedgerState) (h : Reachable s) :
    (∀ did, did ∈ s.documentIds ↔ (s.documents did).owner ≠ 0) ∧
    (∀ did, getDocument s did = .error (.DocumentNotFound did) ↔
       (s.documents did).owner = 0) ∧
    (∀ did sender now body,
       updateEncryptedBody s sender now did body = .error (.DocumentNotFound did) ↔
       (s.documents did).owner = 0) ∧
    (∀ did sender grantee, grantee ≠ 0 →
       (grantAccess s sender did grantee = .error (.DocumentNotFound did) ↔
        (s.documents did).owner = 0)) :=
  ⟨reachable_mem_iff h,
   fun did => getDocument_notfound_iff s did,
   fun did sender now body => updateEncryptedBody_notfound_iff s sender now did body,
   fun did sender grantee hg => grantAccess_notfound_iff s sender did grantee hg⟩

/-- Witness for C10: instantiated on the reachable state stCreated (one
creation from a fresh deployment) at the registered id didA and the
unregistered id 99. -/
theorem C10_witness :
    (didA ∈ stCreated.documentIds ↔ (stCreated.documents didA).owner ≠ 0) ∧
    (getDocument stCreated 99 = .error (.DocumentNotFound 99) ↔
       (stCreated.documents 99).owner = 0) ∧
    (updateEncryptedBody stCreated 1 4 99 "q" = .error (.DocumentNotFound 99) ↔
       (stCreated.documents 99).owner = 0) ∧
    (grantAccess stCreated 1 99 2 = .error (.DocumentNotFound 99) ↔
       (stCreated.documents 99).owner = 0) := by
  have h := C10_exists_iff_owner stCreated
    (@Reachable.create initialState 1 3 7 "a" [] stCreated didA
      Reachable.init (by decide) rfl)
  exact ⟨h.1 didA, h.2.1 99, h.2.2.1 99 1 4 "q", h.2.2.2 99 1 2 (by decide)⟩

/-! Lemmas about the base64 codec. -/

theorem charToSextet_sextetToChar : ∀ n, n < 64 → charToSextet (sextetToChar n) = some n := by
  decide

theorem sextetToChar_ne_eq : ∀ n, n < 64 → sextetToChar n ≠ '=' := by
  decide

theorem sextetToChar_ne_colon (n : Nat) : sextetToChar n ≠ ':' := by
  unfold sextetToChar
  rcases h : base64Chars[n]? with _ | c
  · rw [List.getD_eq_getElem?_getD, h]
    decide
  · have hm : c ∈ base64Chars := List.getElem?_mem h
    rw [List.getD_eq_getElem?_getD, h]
    simp only [Option.getD_some]
    intro hc
    subst hc
    revert hm
    decide

/-- Every character of a base64 encoding differs from the colon separator. -/
theorem base64Encode_ne_colon : ∀ (bs : List Nat), ∀ c ∈ base64Encode bs, c ≠ ':'
  | [], c, hc => by simp [base64Encode] at hc
  | [b0], c, hc => by
      simp only [base64Encode, List.mem_cons, List.not_mem_nil, or_false] at hc
      rcases hc with rfl | rfl | rfl | rfl
      · exact sextetToChar_ne_colon _
      · exact sextetToChar_ne_colon _
      · decide
      · decide
  | [b0, b1], c, hc => by
      simp only [base64Encode, List.mem_cons, List.not_mem_nil, or_false] at hc
      rcases hc with rfl | rfl | rfl | rfl
      · exact sextetToChar_ne_colon _
      · exact sextetToChar_ne_colon _
      · exact sextetToChar_ne_colon _
      · decide
  | b0 :: b1 :: b2 :: bs, c, hc => by
      simp only [base64Encode, List.mem_cons] at hc
      rcases hc with rfl | rfl | rfl | rfl | h
      · exact sextetToChar_ne_colon _
      · exact sextetToChar_ne_colon _
      · exact sextetToChar_ne_colon _
      · exact sextetToChar_ne_colon _
      · exact base64Encode_ne_colon bs c h

/-- The base64 codec round trip: decoding an encoded byte sequence (all bytes
below 256) returns the original bytes. -/
theorem base64Decode_encode : ∀ (bs : List Nat), (∀ b ∈ bs, b < 256) →
    base64Decode (base64Encode bs) = some bs
  | [], _ => rfl
  | [b0], h => by
      have hb0 : b0 < 256 := h b0 (by simp)
      have h0 := charToSextet_sextetToChar (b0 / 4) (by omega)
      have h1 := charToSextet_sextetToChar (b0 % 4 * 16) (by omega)
      simp only [base64Encode, base64Decode, h0, h1]
      simp only [if_true, Option.some.injEq, List.cons.injEq, and_true]
      omega
  | [b0, b1], h => by
      have hb0 : b0 < 256 := h b0 (by simp)
      have hb1 : b1 < 256 := h b1 (by simp)
      have h0 := charToSextet_sextetToChar (b0 / 4) (by omega)
      have h1 := charToSextet_sextetToChar (b0 % 4 * 16 + b1 / 16) (by omega)
      have h2 := charToSextet_sextetToChar (b1 % 16 * 4) (by omega)
      have hne2 : sextetToChar (b1 % 16 * 4) ≠ '=' := sextetToChar_ne_eq _ (by omega)
      simp only [base64Encode, base64Decode, h0, h1]
      rw [if_neg hne2]
      simp only [h2, if_true, Option.some.injEq, List.cons.injEq, and_true]
      omega
  | b0 :: b1 :: b2 :: bs, h => by
      have hb0 : b0 < 256 := h b0 (by simp)
      have hb1 : b1 < 256 := h b1 (by simp)
      have hb2 : b2 < 256 := h b2 (by simp)
      have ih := base64Decode_encode bs (fun b hb => h b (by simp [hb]))
      have h0 := charToSextet_sextetToChar (b0 / 4) (by omega)
      have h1 := charToSextet_sextetToChar (b0 % 4 * 16 + b1 / 16) (by omega)
      have h2 := charToSextet_sextetToChar (b1 % 16 * 4 + b2 / 64) (by omega)
      have h3 := charToSextet_sextetToChar (b2 % 64) (by omega)
      have hne2 : sextetToChar (b1 % 16 * 4 + b2 / 64) ≠ '=' :=
        sextetToChar_ne_eq _ (by omega)
      have hne3 : sextetToChar (b2 % 64) ≠ '=' := sextetToChar_ne_eq _ (by omega)
      simp only [base64Encode, base64Decode, h0, h1]
      rw [if_neg hne2]
      simp only [h2]
      rw [if_neg hne3]
      simp only [h3, ih, Option.some.injEq, List.cons.injEq, and_true]
      omega

/-! Lemmas about the UTF-8 codec, the colon split, and the two claims about
the client cipher. -/

/-- Decoding one scalar from an encoded character followed by any byte tail
returns that character and the tail. -/
theorem utf8DecodeChar_encodeChar (c : Char) (bs : List Nat) :
    utf8DecodeChar (utf8EncodeChar c ++ bs) = some (c, bs) := by
  have hv : c.toNat < 0xd800 ∨ (0xdfff < c.toNat ∧ c.toNat < 0x110000) := c.valid
  by_cases h1 : c.toNat < 0x80
  · rw [show utf8EncodeChar c = [c.toNat] by rw [utf8EncodeChar, if_pos h1]]
    simp only [List.cons_append, List.nil_append, utf8DecodeChar, if_pos h1]
    rw [Char.ofNat_toNat]
  · by_cases h2 : c.toNat < 0x800
    · rw [show utf8EncodeChar c = [0xC0 + c.toNat / 64, 0x80 + c.toNat % 64] by
        rw [utf8EncodeChar, if_neg h1, if_pos h2]]
      simp only [List.cons_append, List.nil_append, utf8DecodeChar]
      rw [if_neg (by omega), if_neg (by omega), if_pos (by omega), if_pos (by omega)]
      rw [show (0xC0 + c.toNat / 64 - 0xC0) * 64 + (0x80 + c.toNat % 64 - 0x80) = c.toNat by omega]
      rw [Char.ofNat_toNat]
    · by_cases h3 : c.toNat < 0x10000
      · rw [show utf8EncodeChar c =
            [0xE0 + c.toNat / 4096, 0x80 + c.toNat / 64 % 64, 0x80 + c.toNat % 64] by
          rw [utf8EncodeChar, if_neg h1, if_neg h2, if_pos h3]]
        simp only [List.cons_append, List.nil_append, utf8DecodeChar]
        rw [if_neg (by omega), if_neg (by omega), if_neg (by omega), if_pos (by omega),
            if_pos (by omega), if_neg (by omega)]
        rw [show (0xE0 + c.toNat / 4096 - 0xE0) * 4096 + (0x80 + c.toNat / 64 % 64 - 0x80) * 64 +
            (0x80 + c.toNat % 64 - 0x80) = c.toNat by omega]
        rw [Char.ofNat_toNat]
      · rw [show utf8EncodeChar c =
            [0xF0 + c.toNat / 262144, 0x80 + c.toNat / 4096 % 64,
             0x80 + c.toNat / 64 % 64, 0x80 + c.toNat % 64] by
          rw [utf8EncodeChar, if_neg h1, if_neg h2, if_neg h3]]
        simp only [List.cons_append, List.nil_append, utf8DecodeChar]
        rw [if_neg (by omega), if_neg (by omega), if_neg (by omega), if_neg (by omega),
            if_pos (by omega), if_pos (by omega), if_neg (by omega)]
        rw [show (0xF0 + c.toNat / 262144 - 0xF0) * 262144 + (0x80 + c.toNat / 4096 % 64 - 0x80) * 4096 +
            (0x80 + c.toNat / 64 % 64 - 0x80) * 64 + (0x80 + c.toNat % 64 - 0x80) = c.toNat by omega]
        rw [Char.ofNat_toNat]

/-- UTF-8 encoding produces bytes. -/
theorem utf8EncodeChar_lt_256 (c : Char) : ∀ b ∈ utf8EncodeChar c, b < 256 := by
  have hv : c.toNat < 0xd800 ∨ (0xdfff < c.toNat ∧ c.toNat < 0x110000) := c.valid
  intro b hb
  rw [utf8EncodeChar] at hb
  split at hb
  · simp at hb
    omega
  · split at hb
    · simp at hb
      rcases hb with rfl | rfl <;> omega
    · split at hb
      · simp at hb
        rcases hb with rfl | rfl | rfl <;> omega
      · simp at hb
        rcases hb with rfl | rfl | rfl | rfl <;> omega

/-- UTF-8 encoding of a character list produces bytes. -/
theorem utf8EncodeList_lt_256 : ∀ (cs : List Char), ∀ b ∈ utf8EncodeList cs, b < 256
  | [] => by simp [utf8EncodeList]
  | c :: cs => by
      intro b hb
      rw [utf8EncodeList, List.mem_append] at hb
      rcases hb with h | h
      · exact utf8EncodeChar_lt_256 c b h
      · exact utf8EncodeList_lt_256 cs b h

/-- The lossy decoder driver inverts the encoder when given enough fuel. -/
theorem utf8DecodeLoop_encodeList :
    ∀ (cs : List Char) (fuel : Nat), (utf8EncodeList cs).length ≤ fuel →
      utf8DecodeLoop fuel (utf8EncodeList cs) = cs
  | [], fuel, h => by cases fuel <;> rfl
  | c :: cs, fuel, h => by
      obtain ⟨b, tl, he⟩ : ∃ b tl, utf8EncodeChar c = b :: tl := by
        rcases hc : utf8EncodeChar c with _ | ⟨b, tl⟩
        · exact absurd hc (utf8EncodeChar_ne_nil c)
        · exact ⟨b, tl, rfl⟩
      have hlen : 0 < (utf8EncodeChar c).length := by
        rw [he]
        simp
      cases fuel with
      | zero =>
          exfalso
          rw [utf8EncodeList, List.length_append] at h
          omega
      | succ fuel =>
          rw [utf8EncodeList, he, List.cons_append, utf8DecodeLoop,
              ← List.cons_append, ← he, utf8DecodeChar_encodeChar]
          show c :: utf8DecodeLoop fuel (utf8EncodeList cs) = c :: cs
          rw [utf8DecodeLoop_encodeList cs fuel (by
            rw [utf8EncodeList, List.length_append] at h
            omega)]

/-- The UTF-8 round trip: decoding an encoded string yields the original
characters. -/
theorem utf8DecodeList_encodeList (cs : List Char) :
    utf8DecodeList (utf8EncodeList cs) = cs :=
  utf8DecodeLoop_encodeList cs _ (Nat.le_refl _)

/-- A colon-free list splits to the single part holding the whole list. -/
theorem splitOnColon_no_colon : ∀ (a : List Char), (∀ c ∈ a, c ≠ ':') →
    splitOnColon a = [a]
  | [], _ => rfl
  | c :: a, h => by
      have hc : c ≠ ':' := h c (by simp)
      rw [splitOnColon, if_neg hc, splitOnColon_no_colon a (fun x hx => h x (by simp [hx]))]

/-- Splitting a ++ ':' :: b with colon-free a yields a followed by the split
of b. -/
theorem splitOnColon_append : ∀ (a b : List Char), (∀ c ∈ a, c ≠ ':') →
    splitOnColon (a ++ ':' :: b) = a :: splitOnColon b
  | [], b, _ => by
      rw [List.nil_append, splitOnColon, if_pos rfl]
  | c :: a, b, h => by
      have hc : c ≠ ':' := h c (by simp)
      rw [List.cons_append, splitOnColon, if_neg hc,
          splitOnColon_append a b (fun x hx => h x (by simp [hx]))]

/-- The payload assembled by encryptDocumentBody splits into exactly the tag
and the two colon-free base64 components. -/
theorem splitOnColon_v1 (a b : List Char) (ha : ∀ c ∈ a, c ≠ ':') (hb : ∀ c ∈ b, c ≠ ':') :
    splitOnColon ('v' :: '1' :: ':' :: (a ++ ':' :: b)) = [['v', '1'], a, b] := by
  rw [splitOnColon, if_neg (by decide), splitOnColon, if_neg (by decide), splitOnColon,
      if_pos rfl, splitOnColon_append a b ha, splitOnColon_no_colon b hb]

/-- C7: for every secret and plaintext - the empty string, ASCII and
multi-byte text alike, since the statement quantifies over all Lean strings -
decrypting an encrypted body with the same secret returns the plaintext
exactly.  The properties of the external AES-GCM primitive that the proof
needs are hypotheses: the cipher inverts itself under one key and nonce, and
ciphertexts are byte sequences; the nonce is the explicit iv parameter drawn
by the Web API from a random source. -/
theorem C7_encrypt_decrypt (wc : WebCrypto) (secret : Nat) (iv : List Nat)
    (plaintext : String)
    (hiv : ∀ b ∈ iv, b < 256)
    (henc : ∀ k i p, (∀ b ∈ p, b < 256) → ∀ b ∈ wc.aesGcmEncrypt k i p, b < 256)
    (hdec : ∀ k i p, wc.aesGcmDecrypt k i (wc.aesGcmEncrypt k i p) = some p) :
    decryptDocumentBody wc secret (encryptDocumentBody wc secret iv plaintext) =
      .ok plaintext := by
  have hct : ∀ b ∈ wc.aesGcmEncrypt (deriveAesKeyFromSecret wc secret) iv
      (utf8EncodeList plaintext.data), b < 256 :=
    henc _ _ _ (utf8EncodeList_lt_256 plaintext.data)
  simp only [encryptDocumentBody, decryptDocumentBody]
  rw [if_neg (by simp)]
  simp only [List.append_assoc, List.cons_append, List.nil_append]
  rw [splitOnColon_v1 _ _ (base64Encode_ne_colon iv) (base64Encode_ne_colon _)]
  show (if (['v', '1'] : List Char) = ['v', '1'] then _ else _) = _
  rw [if_pos rfl, base64Decode_encode iv hiv, base64Decode_encode _ hct]
  show (match wc.aesGcmDecrypt (deriveAesKeyFromSecret wc secret) iv
      (wc.aesGcmEncrypt (deriveAesKeyFromSecret wc secret) iv
        (utf8EncodeList plaintext.data)) with
    | some clear => Except.ok (String.mk (utf8DecodeList clear))
    | none => Except.error DecryptError.AuthError) = Except.ok plaintext
  rw [hdec]
  show Except.ok (String.mk (utf8DecodeList (utf8EncodeList plaintext.data))) = _
  rw [utf8DecodeList_encodeList]

/-- C6: decryptDocumentBody on the empty payload returns the empty string for
every cipher instance (so without consulting the cipher); on a non-empty
payload that does not split at colons into exactly three parts with leading
tag v1 (the character list of the tag v1 is written out) it fails with the
format error; whenever both components base64-decode and the AES-GCM
decryption rejects - wrong secret, corrupted, truncated or tampered data all
land in this case - it fails with the authentication error; and the two
errors are distinct. -/
theorem C6_decrypt_errors (wc : WebCrypto) (secret : Nat) :
    decryptDocumentBody wc secret "" = .ok "" ∧
    (∀ payload : String, payload ≠ "" →
       (¬ ∃ p1 p2, splitOnColon payload.data = [['v', '1'], p1, p2]) →
       decryptDocumentBody wc secret payload = .error .FormatError) ∧
    (∀ (payload : String) (p1 p2 : List Char) (iv ct : List Nat),
       splitOnColon payload.data = [['v', '1'], p1, p2] →
       base64Decode p1 = some iv → base64Decode p2 = some ct →
       wc.aesGcmDecrypt (deriveAesKeyFromSecret wc secret) iv ct = none →
       decryptDocumentBody wc secret payload = .error .AuthError) ∧
    DecryptError.AuthError ≠ DecryptError.FormatError := by
  refine ⟨rfl, ?_, ?_, by decide⟩
  · intro payload hne hnot
    have hd : payload.data ≠ [] := by
      intro h
      apply hne
      cases payload with
      | mk l =>
          simp only at h
          rw [h]
    simp only [decryptDocumentBody]
    rw [if_neg hd]
    rcases hsp : splitOnColon payload.data with _ | ⟨p0, _ | ⟨p1, _ | ⟨p2, _ | ⟨p3, rest⟩⟩⟩⟩
    · rfl
    · rfl
    · rfl
    · by_cases hp0 : p0 = ['v', '1']
      · exact absurd ⟨p1, p2, by rw [hsp, hp0]⟩ hnot
      · show (if p0 = ['v', '1'] then _ else _) = _
        rw [if_neg hp0]
    · rfl
  · intro payload p1 p2 iv ct hsp hb1 hb2 hnone
    have hd : payload.data ≠ [] := by
      intro h
      rw [h] at hsp
      simp [splitOnColon] at hsp
    simp only [decryptDocumentBody]
    rw [if_neg hd, hsp]
    show (if (['v', '1'] : List Char) = ['v', '1'] then _ else _) = _
    rw [if_pos rfl, hb1, hb2]
    show (match wc.aesGcmDecrypt (deriveAesKeyFromSecret wc secret) iv ct with
      | some clear => Except.ok (String.mk (utf8DecodeList clear))
      | none => Except.error DecryptError.AuthError) = Except.error DecryptError.AuthError
    rw [hnone]

/-- Witness for C6: concrete instances - empty payload, a payload with no
colon parts, and a rejecting cipher on a well-formed payload. -/
theorem C6_witness :
    decryptDocumentBody wcId 42 "" = .ok "" ∧
    decryptDocumentBody wcId 42 "junk" = .error .FormatError ∧
    decryptDocumentBody wcNone 42 "v1:AA==:AA==" = .error .AuthError ∧
    DecryptError.AuthError ≠ DecryptError.FormatError := by
  have h1 := C6_decrypt_errors wcId 42
  have h2 := C6_decrypt_errors wcNone 42
  refine ⟨h1.1, h1.2.1 "junk" (by decide) ?_,
          h2.2.2.1 "v1:AA==:AA==" ['A', 'A', '=', '='] ['A', 'A', '=', '=']
            [0] [0] (by decide) (by decide) (by decide) rfl,
          h1.2.2.2⟩
  intro hex
  obtain ⟨p1, p2, h⟩ := hex
  rw [show splitOnColon ("junk".data) = [['j', 'u', 'n', 'k']] from rfl] at h
  simp at h

/-- Witness for C7: the identity cipher instance on a multi-byte plaintext
with a concrete three-byte nonce. -/
theorem C7_witness :
    decryptDocumentBody wcId 42 (encryptDocumentBody wcId 42 [0, 1, 255] "héllo✓") =
      .ok "héllo✓" :=
  C7_encrypt_decrypt wcId 42 [0, 1, 255] "héllo✓" (by decide)
    (fun k i p hp => hp) (fun k i p => rfl)

end SafeHaven
